import Mathlib

/-!
Verification of the FAB_LED addressable-LED driver (src/FAB_LED.h) against its
natural-language specification.  The C++ header is shallowly embedded below:
pure macros and inline template functions become Lean functions on `Nat`
(machine integers are modelled as `Nat` with an explicit `% 2 ^ w` exactly at
the points where the C code stores into a fixed-width integer), buffers become
functions `Nat -> Nat` (the code performs unchecked pointer arithmetic, so a
buffer is an unbounded byte memory), and transmissions become explicit event
lists.  Every definition is translated from the source; definitions whose doc
comment says `Modelled from the spec` restate the specification's words for
comparison against the code's behaviour.
-/

set_option maxHeartbeats 2000000

namespace FABLED

/-! ## Pixel format tags (FAB_LED.h lines 49-64) -/

/-- Color order tag `PT_RGB` (`0b00100000`). -/
def PT_RGB : Nat := 0b00100000

/-- Color order tag `PT_GRB` (`0b01000000`). -/
def PT_GRB : Nat := 0b01000000

/-- Color order tag `PT_BGR` (`0b10000000`). -/
def PT_BGR : Nat := 0b10000000

/-- Mask `PT_COL` for the 3-byte color order bits. -/
def PT_COL : Nat := 0b11100000

/-- Extra-byte tag `PT_XXXW`: trailing white byte (sk6812). -/
def PT_XXXW : Nat := 0b00000001

/-- Extra-byte tag `PT_BXXX`: leading APA-102 brightness byte. -/
def PT_BXXX : Nat := 0b00000010

/-- Mask `PT_XBYT` for the extra-byte tag bits. -/
def PT_XBYT : Nat := 0b00000011

/-- Embeds the macro `PT_BYTES_PER_PIXEL(v)`, FAB_LED.h line 64, which expands
to `(((v) & PT_XBYT != 0) ? 4 : 3)`.  In C, `!=` binds tighter than `&`, so the
expression parses as `v & (PT_XBYT != 0)`, i.e. `v & 1`: the conditional tests
only bit 0 of the tag.  The embedding reproduces that parse faithfully. -/
def PT_BYTES_PER_PIXEL (v : Nat) : Nat :=
  if v &&& (if PT_XBYT ≠ 0 then 1 else 0) ≠ 0 then 4 else 3

/-- Modelled from the spec: the byte count the specification ascribes to a
format tag, namely 4 exactly when an extra channel bit (white or brightness)
is set and 3 otherwise.  This is the evident intent `(v & PT_XBYT) != 0` of
the macro, stated for comparison with `PT_BYTES_PER_PIXEL`. -/
def bytesPerPixelSpec (v : Nat) : Nat :=
  if v &&& PT_XBYT ≠ 0 then 4 else 3

/-- The `sizeof` of the pixel struct carrying tag `v`: the structs with an
extra-byte bit (`rgbw`, `grbw`, `hbgr`, lines 91-117) have four `uint8_t`
fields, the others three. -/
def structSize (v : Nat) : Nat :=
  if v &&& PT_XBYT ≠ 0 then 4 else 3

/-- Type tag of `struct rgb` (line 68). -/
def rgbType : Nat := PT_RGB

/-- Type tag of `struct grb` (line 76). -/
def grbType : Nat := PT_GRB

/-- Type tag of `struct bgr` (line 83). -/
def bgrType : Nat := PT_BGR

/-- Type tag of `struct rgbw` (line 91). -/
def rgbwType : Nat := PT_RGB ||| PT_XXXW

/-- Type tag of `struct grbw` (line 100). -/
def grbwType : Nat := PT_GRB ||| PT_XXXW

/-- Type tag of `struct hbgr` (line 109). -/
def hbgrType : Nat := PT_BGR ||| PT_BXXX

/-! ## Pixel structs as raw bytes

The conversion code in `send<pixelClassF>` manipulates a pixel both through
its named fields (`.r`, `.g`, `.b`) and through the `anon_pixel` overlay
(`.f0` .. `.f3`, line 382).  A pixel value is therefore embedded as its four
raw bytes, and the field offsets of each struct are read off the `typedef`
declarations at lines 68-117. -/

/-- Raw bytes of a pixel struct, the `anon_pixel` view (line 382):
`f0` is the first byte in memory. -/
structure Pix4 where
  f0 : Nat
  f1 : Nat
  f2 : Nat
  f3 : Nat
deriving DecidableEq, Repr

/-- Reads the byte at offset `off` of a pixel struct. -/
def getF (p : Pix4) (off : Nat) : Nat :=
  if off = 0 then p.f0 else if off = 1 then p.f1 else if off = 2 then p.f2 else p.f3

/-- Writes the byte at offset `off` of a pixel struct. -/
def setF (p : Pix4) (off v : Nat) : Pix4 :=
  if off = 0 then { p with f0 := v }
  else if off = 1 then { p with f1 := v }
  else if off = 2 then { p with f2 := v }
  else { p with f3 := v }

/-- Byte offset of field `r` in the struct with tag `v`, from the
declarations at lines 68-117: `rgb`/`rgbw` store `r` first, `grb`/`grbw`
second, `bgr` third, and `hbgr` (header, blue, green, red) fourth. -/
def rOff (v : Nat) : Nat :=
  if v = rgbType ∨ v = rgbwType then 0
  else if v = grbType ∨ v = grbwType then 1
  else if v = bgrType then 2
  else 3

/-- Byte offset of field `g` in the struct with tag `v` (lines 68-117). -/
def gOff (v : Nat) : Nat :=
  if v = grbType ∨ v = grbwType then 0
  else if v = rgbType ∨ v = rgbwType ∨ v = bgrType then 1
  else 2

/-- Byte offset of field `b` in the struct with tag `v` (lines 68-117):
`bgr` stores `b` first, `hbgr` second (after the header byte), the others
third. -/
def bOff (v : Nat) : Nat :=
  if v = bgrType then 0
  else if v = hbgrType then 1
  else 2

/-- Memory image of the struct with tag `v`: its first `structSize v`
bytes. -/
def pixBytes (v : Nat) (p : Pix4) : List Nat :=
  (List.range (structSize v)).map (getF p)

/-- Memory image of an array of structs with tag `v`, laid out
contiguously. -/
def flattenPixels (v : Nat) (ps : List Pix4) : List Nat :=
  ps.flatMap (pixBytes v)

/-- First `n` bytes of a pixel struct's memory, as read by
`sendBytes(n, (uint8_t *) &p)`. -/
def firstBytes (n : Nat) (p : Pix4) : List Nat :=
  (List.range n).map (getF p)

/-! ## Typed pixel conversion, `send<pixelClassF>` (lines 1350-1388) -/

/-- Embeds the per-pixel format conversion of
`avrBitbangLedStrip::send<pixelClassF>` (lines 1361-1380) for native tag
`native` and source tag `src`: `pixelClass p = {}` zero-initialises, the
native extra channel is defaulted (`f3 = 0` for a white channel, `f0 = 0xFF`
for a brightness channel), the `r`, `g`, `b` fields are copied by name, and
the extra channel is copied from the source only when both formats carry the
same extra-channel bit. -/
def convertPixel (native src : Nat) (a : Pix4) : Pix4 :=
  let p : Pix4 := ⟨0, 0, 0, 0⟩
  let p := if native &&& PT_XXXW ≠ 0 then setF p 3 0 else p
  let p := if native &&& PT_BXXX ≠ 0 then setF p 0 0xFF else p
  let p := setF p (rOff native) (getF a (rOff src))
  let p := setF p (gOff native) (getF a (gOff src))
  let p := setF p (bOff native) (getF a (bOff src))
  let p := if native &&& src &&& PT_XXXW ≠ 0 then setF p 3 (getF a 3) else p
  let p := if native &&& src &&& PT_BXXX ≠ 0 then setF p 0 (getF a 0) else p
  p

/-- Embeds the byte stream `send<pixelClassF>` (lines 1350-1388) forwards to
`sendBytes`.  When the source tag equals the native tag the call is
`sendBytes(numPixels * stripBPP, (uint8_t *) array)`: the first
`numPixels * stripBPP` bytes of the array's memory.  Otherwise each pixel is
converted and `sendBytes(stripBPP, (uint8_t *) &p)` forwards the first
`stripBPP` bytes of the converted pixel.  `stripBPP` is the class constant
`PT_BYTES_PER_PIXEL(pixelClass::type)` (line 377). -/
def sendTypedBytes (native src : Nat) (pixels : List Pix4) : List Nat :=
  let stripBPP := PT_BYTES_PER_PIXEL native
  if src = native then
    (flattenPixels src pixels).take (pixels.length * stripBPP)
  else
    pixels.flatMap (fun a => firstBytes stripBPP (convertPixel native src a))

/-! ## Palette encode/decode macros (lines 151-160) -/

/-- Byte-level store performed by `_SET_PIXEL` (lines 151-155): the target
byte is masked with the complement of the field mask shifted into place, the
color is OR-ed in, and the result is truncated to 8 bits by the `uint8_t`
store.  `255 ^^^ (m &&& 255)` is the low byte of the C `~m`; `oldByte` is
assumed to be a byte value. -/
def setPixelByte (oldByte shift bitsPerPixel color : Nat) : Nat :=
  ((oldByte &&& (255 ^^^ ((((1 <<< bitsPerPixel) - 1) <<< shift) &&& 255))) |||
    (color <<< shift)) % 256

/-- Embeds `_SET_PIXEL(array, index, bitsPerPixel, color)` (lines 151-155):
byte `index / (8 / bitsPerPixel)` of the buffer is rewritten, every other
byte is untouched. -/
def SET_PIXEL (array : Nat → Nat) (index bitsPerPixel color : Nat) : Nat → Nat :=
  fun j =>
    if j = index / (8 / bitsPerPixel) then
      setPixelByte (array j) ((index * bitsPerPixel) % 8) bitsPerPixel color
    else array j

/-- Embeds `_GET_PIXEL(array, index, bitsPerPixel)` (lines 158-160); in C,
`%` binds tighter than `>>`, so the shift amount is `(index*bitsPerPixel)%8`. -/
def GET_PIXEL (array : Nat → Nat) (index bitsPerPixel : Nat) : Nat :=
  (array (index / (8 / bitsPerPixel)) >>> ((index * bitsPerPixel) % 8)) &&&
    ((1 <<< bitsPerPixel) - 1)

/-! ## Cycle/nanosecond conversion macros (lines 166-169) -/

/-- `NS_PER_SEC` (line 166). -/
def NS_PER_SEC : Nat := 1000000000

/-- Embeds `CYCLES(time_ns)` (line 168) at CPU frequency `fcpu` (the macro's
`CYCLES_PER_SEC = F_CPU`): `((F_CPU * time_ns) + NS_PER_SEC - 1) / NS_PER_SEC`
in exact (`uint64_t`, non-overflowing) arithmetic. -/
def CYCLES (fcpu time_ns : Nat) : Nat :=
  (fcpu * time_ns + NS_PER_SEC - 1) / NS_PER_SEC

/-- Embeds `NANOSECONDS(cycles)` (line 169) at CPU frequency `fcpu`:
`(cycles * NS_PER_SEC + CYCLES_PER_SEC - 1) / CYCLES_PER_SEC`. -/
def NANOSECONDS (fcpu cycles : Nat) : Nat :=
  (cycles * NS_PER_SEC + fcpu - 1) / fcpu

/-! ## Protocols and low-level transmission (lines 186-198, 919-1281) -/

/-- The `ledProtocol` enumeration (lines 187-197). -/
inductive LedProtocol where
  | onePortBitbang
  | twoPortSplitBitbang
  | twoPortIntlvBitbang
  | eightPortBitbang
  | onePortPWM
  | onePortUART
  | spiBitbang
  | spiHardware
deriving DecidableEq, Repr

/-- The two GPIO lines a driver instance owns: the data line, and the clock
line that the two-port protocols repurpose as a second data line. -/
inductive Port where
  | dataP
  | clockP
deriving DecidableEq, Repr

/-- One observable transmission event: `tx port idx val` is the byte
`val = array idx` of the source array leaving on `port` (the eight per-bit
pin toggles of one byte are summarised into one event, as no claim concerns
sub-byte pin timing), and `eightPortCall count` records an invocation of the
experimental `eightPortSoftwareSendBytes`, which no claim examines at byte
level. -/
inductive TxEvent where
  | tx (port : Port) (idx : Nat) (val : Nat)
  | eightPortCall (count : Nat)
deriving DecidableEq, Repr

/-- Embeds `onePortSoftwareSendBytes` (lines 1246-1281): bytes
`array[0] .. array[count-1]` leave on the data line in order. -/
def onePortSoftwareSendBytes (count : Nat) (array : Nat → Nat) : List TxEvent :=
  (List.range count).map (fun c => .tx .dataP c (array c))

/-- Embeds `spiSoftwareSendBytes` (lines 957-982): bytes
`array[0] .. array[count-1]` leave on the data line in order, clocked. -/
def spiSoftwareSendBytes (count : Nat) (array : Nat → Nat) : List TxEvent :=
  (List.range count).map (fun c => .tx .dataP c (array c))

/-- Embeds `twoPortSoftwareSendBytes` (lines 989-1034).  For the split
protocol `blockSize = count/2`, stride 1; for the interleaved protocol
`blockSize = count`, stride 2.  The outer loop
`for (pix = 0; pix < blockSize; pix += increment)` visits exactly the
multiples of `increment` below `blockSize`; the inner loop sends the bytes
`array[pix] .. array[pix+stripBPP-1]` on the data line and concurrently
`array[pos + blockSize]` (split) or `array[pos + stripBPP]` (interleaved) on
the clock line. -/
def twoPortSoftwareSendBytes (protocol : LedProtocol) (stripBPP count : Nat)
    (array : Nat → Nat) : List TxEvent :=
  let blockSize := if protocol = .twoPortSplitBitbang then count / 2 else count
  let stride := if protocol = .twoPortSplitBitbang then 1 else 2
  let increment := stride * stripBPP
  ((List.range blockSize).filter (fun pix => pix % increment == 0)).flatMap (fun pix =>
    (List.range stripBPP).flatMap (fun k =>
      let pos := pix + k
      let cpos := if protocol = .twoPortSplitBitbang then pos + blockSize else pos + stripBPP
      [TxEvent.tx .dataP pos (array pos), TxEvent.tx .clockP cpos (array cpos)]))

/-- Embeds the `sendBytes` dispatch (lines 919-939).  The `switch` statement
has cases only for the four bit-bang protocols and `SPI_BITBANG`; for
`ONE_PORT_PWM`, `ONE_PORT_UART` and `SPI_HARDWARE` no case matches and the
function returns having done nothing. -/
def sendBytes (protocol : LedProtocol) (stripBPP count : Nat)
    (array : Nat → Nat) : List TxEvent :=
  match protocol with
  | .onePortBitbang => onePortSoftwareSendBytes count array
  | .twoPortSplitBitbang => twoPortSoftwareSendBytes protocol stripBPP count array
  | .twoPortIntlvBitbang => twoPortSoftwareSendBytes protocol stripBPP count array
  | .eightPortBitbang => [.eightPortCall count]
  | .spiBitbang => spiSoftwareSendBytes count array
  | .onePortPWM => []
  | .onePortUART => []
  | .spiHardware => []

/-- Source-byte indices leaving on the data line, in order. -/
def dataIndices (evs : List TxEvent) : List Nat :=
  evs.filterMap (fun e => match e with | .tx .dataP i _ => some i | _ => none)

/-- Source-byte indices leaving on the clock line, in order. -/
def clockIndices (evs : List TxEvent) : List Nat :=
  evs.filterMap (fun e => match e with | .tx .clockP i _ => some i | _ => none)

/-! ## Strobe session state (lines 743-744, 941-955, 1320-1348) -/

/-- Initial value of the per-instantiation counter `pixelsDisplayed`
(line 744). -/
def pixelsDisplayedInit : Nat := 0

/-- Embeds `spiSoftwareSendFrame(count, high)` (lines 941-955): the loop
`for (c = 0; c < 8 * count; c++)` issues exactly `8 * count` clock
pulses. -/
def spiFramePulses (count : Nat) : Nat := 8 * count

/-- The `count` argument `end()` passes to `spiSoftwareSendFrame` under
`SPI_BITBANG` (line 1342): `++pixelsDisplayed / 2`, i.e. the `uint16_t`
counter is pre-incremented (wrapping at `2^16`) and halved. -/
def endSPIFrameArg (pd : Nat) : Nat :=
  ((pd + 1) % 65536) / 2

/-- Mathematical ceiling of `n / 2`, the quantity the specification names
for the Strobe end frame. -/
def ceilHalf (n : Nat) : Nat := n / 2 + n % 2

/-- Operations of one `begin()`/`send(...)`/`end()` session that can touch
the driver's static state. -/
inductive DriverOp where
  | opBegin
  | opEnd
  | opSendTyped (numPixels : Nat)
  | opSendPacked16 (numPixels brightness : Nat)
deriving DecidableEq, Repr

/-- Effect of each operation on the `uint16_t` counter `pixelsDisplayed`,
read off the source: `begin()` (lines 1320-1334) never touches it;
`end()` (lines 1336-1348) zeroes it in the `SPI_BITBANG` branch only;
the typed send (lines 1385-1387) adds `numPixels` under `SPI_BITBANG` only;
the 16-bit packed send (lines 1390-1415) never references it. -/
def stepPD (protocol : LedProtocol) (pd : Nat) : DriverOp → Nat
  | .opBegin => pd
  | .opEnd => if protocol = .spiBitbang then 0 else pd
  | .opSendTyped n => if protocol = .spiBitbang then (pd + n) % 65536 else pd
  | .opSendPacked16 _ _ => pd

/-- Value of `pixelsDisplayed` after a sequence of operations. -/
def runPD (protocol : LedProtocol) (pd : Nat) (ops : List DriverOp) : Nat :=
  ops.foldl (stepPD protocol) pd

/-! ## Palette-indexed send with remap (lines 1420-1454) -/

/-- Embeds `send<bitsPerPixel, uint8_t, paletteClassF, uint8_t>` (lines
1420-1454) in the case `palette != NULL`, instantiated at `mapIntF =
uint8_t` (so `iMax = (mapIntF) count` truncates to a byte, and map entries
are bytes).  For each physical position `i` the remapped index `ri` is
`map[i]` (or `i` without a map), the color index
`ci = GET_PIXEL(array, ri, bitsPerPixel)` is computed into a block-local
variable that is never read again, and the pixel passed on to `send(1, _)`
is `&palette[i]`.  The palette entries are abstracted to their identities
`palette : Nat -> Nat`; the result is the list of pixels transmitted. -/
def sendPaletteRemap (bitsPerPixel count : Nat) (array : Nat → Nat)
    (palette : Nat → Nat) (map : Option (Nat → Nat)) : List Nat :=
  let iMax := count % 256
  (List.range iMax).map (fun i =>
    let ri := match map with
      | some m => (m i) % 256
      | none => i
    let _ci := GET_PIXEL array ri bitsPerPixel
    palette i)

/-- Modelled from the spec: the palette-indexed send as section 4.5 of the
specification describes it, missing from the code's behaviour - for each
physical position resolve the logical index `ri` via the remap table, decode
the palette color index from the packed array at `ri`, then send
`palette[colorIndex]`. -/
def sendPaletteRemapSpec (bitsPerPixel count : Nat) (array : Nat → Nat)
    (palette : Nat → Nat) (map : Option (Nat → Nat)) : List Nat :=
  let iMax := count % 256
  (List.range iMax).map (fun i =>
    let ri := match map with
      | some m => (m i) % 256
      | none => i
    palette (GET_PIXEL array ri bitsPerPixel))

/-! ## Theorems -/

/-- Claim C1 (code bug).  The palette-indexed send with remap computes the
remapped index `ri` and the decoded color index `ci` exactly as the claim
states, but then transmits `palette[i]` instead of `palette[ci]`: the local
`ci` (line 1445) is never read.  Evaluated at the failing input
`bitsPerPixel = 2`, `count = 2`, packed array all zero (so every decoded
color index is 0), identity-like palette and no map: the code transmits
`palette[0], palette[1]` where the claim requires `palette[0], palette[0]`. -/
theorem palette_send_ignores_color_index :
    sendPaletteRemap 2 2 (fun _ => 0) (fun n => 100 + n) none = [100, 101] ∧
    sendPaletteRemapSpec 2 2 (fun _ => 0) (fun n => 100 + n) none = [100, 100] ∧
    sendPaletteRemap 2 2 (fun _ => 0) (fun n => 100 + n) none ≠
      sendPaletteRemapSpec 2 2 (fun _ => 0) (fun n => 100 + n) none := by
  refine ⟨rfl, rfl, ?_⟩
  decide

/-- Claim C2 (counterexample).  At the maximal `uint16_t` counter value
`pixelsDisplayed = 65535`, the pre-increment in
`spiSoftwareSendFrame(++pixelsDisplayed/2, true)` wraps to 0, so the closing
frame length argument is 0 while the ceiling of `65535 / 2` is 32768: the
claim fails as stated at this one value. -/
theorem strobe_end_frame_wraps_at_max :
    endSPIFrameArg 65535 = 0 ∧ ceilHalf 65535 = 32768 ∧
    endSPIFrameArg 65535 ≠ ceilHalf 65535 := by
  decide

/-- Claim C2 (amended).  For every counter value `n` below the `uint16_t`
wrap point 65535, the closing frame `end()` emits under the Strobe protocol
has length argument `ceil(n / 2)` - so the frame consists of
`8 * ceil(n / 2)` clock pulses, `spiSoftwareSendFrame` issuing 8 pulses per
count - and after `end()` the counter `pixelsDisplayed` is 0 (the reset
holds for every `n`, wrap point included). -/
theorem strobe_end_frame_is_ceil_half (n : Nat) (h : n < 65535) :
    endSPIFrameArg n = ceilHalf n ∧
    spiFramePulses (endSPIFrameArg n) = 8 * ceilHalf n ∧
    (∀ pd : Nat, stepPD .spiBitbang pd .opEnd = 0) := by
  have h1 : endSPIFrameArg n = ceilHalf n := by
    unfold endSPIFrameArg ceilHalf
    have : (n + 1) % 65536 = n + 1 := Nat.mod_eq_of_lt (by omega)
    rw [this]
    omega
  refine ⟨h1, by rw [h1, spiFramePulses], fun pd => rfl⟩

/-- Claim C2 witness: the amended theorem applied at `n = 5`. -/
theorem strobe_end_frame_is_ceil_half_witness :
    endSPIFrameArg 5 = ceilHalf 5 :=
  (strobe_end_frame_is_ceil_half 5 (by decide)).1

/-- Claim C3 (code bug).  The macro `PT_BYTES_PER_PIXEL` parses as
`v & (PT_XBYT != 0)`, i.e. it tests only bit 0 of the format tag, so for the
brightness-prefixed `hbgr` tag (`PT_BGR | PT_BXXX`, bit 1 set, bit 0 clear)
it yields 3 even though the tag carries an extra channel, its struct has
four bytes, and the specification requires 4.  The white-channel tags land
on 4 only because `PT_XXXW` happens to be bit 0. -/
theorem bytes_per_pixel_wrong_for_hbgr :
    PT_BYTES_PER_PIXEL hbgrType = 3 ∧
    hbgrType &&& PT_XBYT ≠ 0 ∧
    bytesPerPixelSpec hbgrType = 4 ∧
    structSize hbgrType = 4 ∧
    PT_BYTES_PER_PIXEL rgbType = 3 ∧ PT_BYTES_PER_PIXEL grbType = 3 ∧
    PT_BYTES_PER_PIXEL bgrType = 3 ∧ PT_BYTES_PER_PIXEL rgbwType = 4 ∧
    PT_BYTES_PER_PIXEL grbwType = 4 := by
  decide

/-- Claim C4 (code bug).  Because `stripBPP` is 3 for the native `hbgr`
format (claim C3's precedence slip), the same-format fast path
`sendBytes(numPixels * stripBPP, (uint8_t *) array)` forwards only 3 of the
4 bytes of an `hbgr` pixel: at the failing input of one native `hbgr` pixel
with bytes `(0xE5, 1, 2, 3)` the bytes forwarded are `[0xE5, 1, 2]`, not the
source's `[0xE5, 1, 2, 3]` - the red byte is dropped, so the forwarding is
not byte-identical.  For contrast, the claim's GRB scenario does hold: a
source RGB pixel `r=10, g=20, b=30` sent to a native GRB strip forwards
`[20, 10, 30]`. -/
theorem typed_send_truncates_hbgr :
    sendTypedBytes hbgrType hbgrType [⟨0xE5, 1, 2, 3⟩] = [0xE5, 1, 2] ∧
    flattenPixels hbgrType [⟨0xE5, 1, 2, 3⟩] = [0xE5, 1, 2, 3] ∧
    sendTypedBytes grbType rgbType [⟨10, 20, 30, 0⟩] = [20, 10, 30] := by
  decide

/-- Claim C9 (code bug).  Instantiating the driver with one of the declared
but unimplemented protocol variants compiles (no `STATIC_ASSERT` guards the
protocol anywhere in the header), and `sendBytes` is then a silent run-time
no-op: its `switch` has no case for `ONE_PORT_PWM`, `ONE_PORT_UART` or
`SPI_HARDWARE`, so no transmission event is produced for any byte count,
while every implemented protocol transmits.  The claim's required build-time
rejection does not happen. -/
theorem unimplemented_protocols_are_silent_noop :
    (∀ (stripBPP count : Nat) (array : Nat → Nat),
      sendBytes .onePortPWM stripBPP count array = [] ∧
      sendBytes .onePortUART stripBPP count array = [] ∧
      sendBytes .spiHardware stripBPP count array = []) ∧
    sendBytes .onePortBitbang 3 1 (fun _ => 0) ≠ [] := by
  exact ⟨fun _ _ _ => ⟨rfl, rfl, rfl⟩, by decide⟩

/-- Claim C10 (confirmed).  The counter `pixelsDisplayed` starts at 0; under
every protocol other than `SPI_BITBANG` no sequence of `begin`, `send`
(typed or 16-bit packed) and `end` operations changes it; and even under
`SPI_BITBANG` the 16-bit packed-pixel send overload leaves it untouched
while the typed send path adds the pixel count (wrapping as `uint16_t`), so
a following `end()` sizes its closing frame solely from typed-path
pixels. -/
theorem pixels_displayed_only_spi_typed_path
    (protocol : LedProtocol) (h : protocol ≠ .spiBitbang) :
    pixelsDisplayedInit = 0 ∧
    (∀ (pd : Nat) (ops : List DriverOp), runPD protocol pd ops = pd) ∧
    (∀ (pd n b : Nat), stepPD .spiBitbang pd (.opSendPacked16 n b) = pd) ∧
    (∀ pd n : Nat, stepPD .spiBitbang pd (.opSendTyped n) = (pd + n) % 65536) ∧
    (∀ pd : Nat, endSPIFrameArg pd = ((pd + 1) % 65536) / 2) := by
  refine ⟨rfl, ?_, fun _ _ _ => rfl, fun _ _ => by simp [stepPD], fun _ => rfl⟩
  intro pd ops
  induction ops generalizing pd with
  | nil => rfl
  | cons op rest ih =>
    have hstep : stepPD protocol pd op = pd := by
      cases op with
      | opBegin => rfl
      | opEnd => simp [stepPD, h]
      | opSendTyped n => simp [stepPD, h]
      | opSendPacked16 n b => rfl
    simpa [runPD, List.foldl, hstep] using ih pd

/-- Claim C10 witness: the theorem applied at the one-port protocol with a
concrete operation sequence. -/
theorem pixels_displayed_only_spi_typed_path_witness :
    runPD .onePortBitbang 7 [.opBegin, .opSendTyped 5, .opSendPacked16 2 1, .opEnd] = 7 :=
  (pixels_displayed_only_spi_typed_path .onePortBitbang (by decide)).2.1 7 _

/-- Helper: the ceiling division `(a + b - 1) / b` multiplied back by `b`
covers `a`. -/
theorem ceil_div_mul_ge (a b : Nat) (hb : 0 < b) :
    a ≤ (a + b - 1) / b * b := by
  have h1 := Nat.div_add_mod (a + b - 1) b
  have h2 : (a + b - 1) % b < b := Nat.mod_lt _ hb
  have h3 : (a + b - 1) / b * b = b * ((a + b - 1) / b) := Nat.mul_comm _ _
  omega

/-- Helper: the ceiling division `(a + b - 1) / b` is at most any `m` whose
multiple `m * b` covers `a`. -/
theorem ceil_div_le_of_mul_ge (a b m : Nat) (hb : 0 < b) (h : a ≤ m * b) :
    (a + b - 1) / b ≤ m := by
  have h1 : a + b - 1 ≤ m * b + (b - 1) := by omega
  have h2 : (a + b - 1) / b ≤ (m * b + (b - 1)) / b := Nat.div_le_div_right h1
  have h3 : (m * b + (b - 1)) / b = m := by
    rw [Nat.mul_comm m b, Nat.mul_add_div hb]
    simp [Nat.div_eq_of_lt (show b - 1 < b by omega)]
  omega

/-- Claim C6 (confirmed).  For every clock frequency `f > 0` and nanosecond
duration `d`, `CYCLES f d` is the least integer `n` with
`n * 10^9 >= d * f` (the exact integer ceiling of `d * f / 10^9`), the
round-trip `NANOSECONDS f (CYCLES f d)` covers `d`, and at
`f = 16 MHz`, `d = 650 ns` the cycle count is 11. -/
theorem cycles_is_exact_ceiling (f d : Nat) (hf : 0 < f) :
    d * f ≤ CYCLES f d * NS_PER_SEC ∧
    (∀ m : Nat, d * f ≤ m * NS_PER_SEC → CYCLES f d ≤ m) ∧
    d ≤ NANOSECONDS f (CYCLES f d) ∧
    CYCLES 16000000 650 = 11 := by
  have hns : 0 < NS_PER_SEC := by decide
  have key : d * f ≤ CYCLES f d * NS_PER_SEC := by
    rw [Nat.mul_comm d f]
    exact ceil_div_mul_ge (f * d) NS_PER_SEC hns
  refine ⟨key, ?_, ?_, by decide⟩
  · intro m hm
    have hm' : f * d ≤ m * NS_PER_SEC := by
      rw [Nat.mul_comm f d]
      exact hm
    exact ceil_div_le_of_mul_ge (f * d) NS_PER_SEC m hns hm'
  · -- NANOSECONDS f c = (c * 10^9 + f - 1) / f with c * 10^9 >= d * f
    have h2 : (d * f + (f - 1)) / f ≤ (CYCLES f d * NS_PER_SEC + f - 1) / f :=
      Nat.div_le_div_right (by omega)
    have h3 : (d * f + (f - 1)) / f = d := by
      rw [Nat.mul_comm d f, Nat.mul_add_div hf]
      simp [Nat.div_eq_of_lt (show f - 1 < f by omega)]
    calc d = (d * f + (f - 1)) / f := h3.symm
      _ ≤ (CYCLES f d * NS_PER_SEC + f - 1) / f := h2
      _ = NANOSECONDS f (CYCLES f d) := rfl

/-- Claim C6 witness: the theorem applied at `f = 16000000`, `d = 650`. -/
theorem cycles_is_exact_ceiling_witness :
    650 * 16000000 ≤ CYCLES 16000000 650 * NS_PER_SEC :=
  (cycles_is_exact_ceiling 16000000 650 (by decide)).1

/-- Helper: byte-level behaviour of `setPixelByte` when the bit field fits
in the byte.  Reading the field back with the `_GET_PIXEL` shift-and-mask
returns the written color, and every bit of the byte outside the field is
preserved. -/
theorem setPixelByte_core (bpp s b c : Nat) (hsb : s + bpp ≤ 8) (hb : b < 256)
    (hc : c < 2 ^ bpp) :
    (setPixelByte b s bpp c >>> s) &&& ((1 <<< bpp) - 1) = c ∧
    ∀ u, (u < s ∨ s + bpp ≤ u) → (setPixelByte b s bpp c).testBit u = b.testBit u := by
  have hform : setPixelByte b s bpp c =
      ((b &&& (2 ^ 8 - 1 ^^^ (((2 ^ bpp - 1) <<< s) &&& (2 ^ 8 - 1)))) ||| (c <<< s)) % 2 ^ 8 := by
    unfold setPixelByte
    rw [Nat.one_shiftLeft]
    norm_num
  constructor
  · apply Nat.eq_of_testBit_eq
    intro i
    rw [Nat.one_shiftLeft, Nat.testBit_and, Nat.testBit_shiftRight, hform,
      Nat.testBit_two_pow_sub_one]
    simp only [Nat.testBit_mod_two_pow, Nat.testBit_or, Nat.testBit_and, Nat.testBit_xor,
      Nat.testBit_shiftLeft, Nat.testBit_two_pow_sub_one]
    by_cases hi : i < bpp
    · have h1 : s + i < 8 := by omega
      have h2 : s ≤ s + i := by omega
      simp [h1, h2, hi, Nat.add_sub_cancel_left]
    · have hcf : c.testBit i = false :=
        Nat.testBit_eq_false_of_lt (lt_of_lt_of_le hc (Nat.pow_le_pow_right (by decide) (by omega)))
      simp [hi, hcf]
  · intro u hcase
    by_cases hu8 : u < 8
    · rw [hform]
      simp only [Nat.testBit_mod_two_pow, Nat.testBit_or, Nat.testBit_and, Nat.testBit_xor,
        Nat.testBit_shiftLeft, Nat.testBit_two_pow_sub_one]
      rcases hcase with hu | hu
      · have h3 : ¬ (s ≤ u) := by omega
        simp [hu8, h3]
      · have h4 : s ≤ u := by omega
        have h5 : ¬ (u - s < bpp) := by omega
        have hcf : c.testBit (u - s) = false :=
          Nat.testBit_eq_false_of_lt
            (lt_of_lt_of_le hc (Nat.pow_le_pow_right (by decide) (by omega)))
        simp [hu8, h4, h5, hcf]
    · have hX : setPixelByte b s bpp c < 2 ^ u := by
        have hm : setPixelByte b s bpp c < 256 := Nat.mod_lt _ (by decide)
        calc setPixelByte b s bpp c < 256 := hm
          _ = 2 ^ 8 := by decide
          _ ≤ 2 ^ u := Nat.pow_le_pow_right (by decide) (by omega)
      have hB : b < 2 ^ u := by
        calc b < 256 := hb
          _ = 2 ^ 8 := by decide
          _ ≤ 2 ^ u := Nat.pow_le_pow_right (by decide) (by omega)
      rw [Nat.testBit_eq_false_of_lt hX, Nat.testBit_eq_false_of_lt hB]

/-- Helper: the `SET_PIXEL`/`GET_PIXEL` round-trip and frame condition for
any bit width dividing 8 (the shift `(index * bpp) % 8` then keeps the whole
field inside the target byte). -/
theorem set_get_general (bpp : Nat) (hdvd : bpp ∣ 8) (_hpos : 0 < bpp)
    (array : Nat → Nat) (index color : Nat)
    (hc : color < 2 ^ bpp) (hbytes : ∀ j, array j < 256) :
    GET_PIXEL (SET_PIXEL array index bpp color) index bpp = color ∧
    ∀ j u, (j ≠ index / (8 / bpp) ∨ u < (index * bpp) % 8 ∨ (index * bpp) % 8 + bpp ≤ u) →
      (SET_PIXEL array index bpp color j).testBit u = (array j).testBit u := by
  have hs8 : (index * bpp) % 8 < 8 := Nat.mod_lt _ (by decide)
  have hd : bpp ∣ (index * bpp) % 8 := (Nat.dvd_mod_iff hdvd).mpr (dvd_mul_left bpp index)
  have hsb : (index * bpp) % 8 + bpp ≤ 8 := by
    obtain ⟨t, ht⟩ := hd
    obtain ⟨k, hk⟩ := hdvd
    have htk : t + 1 ≤ k := by
      by_contra hge
      push_neg at hge
      have hmul : bpp * k ≤ bpp * t := Nat.mul_le_mul (Nat.le_refl bpp) (by omega)
      omega
    have hmul2 : bpp * (t + 1) ≤ bpp * k := Nat.mul_le_mul (Nat.le_refl bpp) htk
    have hdist : bpp * (t + 1) = bpp * t + bpp := by ring
    omega
  have hcore := setPixelByte_core bpp ((index * bpp) % 8)
    (array (index / (8 / bpp))) color hsb (hbytes _) hc
  have hset : SET_PIXEL array index bpp color (index / (8 / bpp)) =
      setPixelByte (array (index / (8 / bpp))) ((index * bpp) % 8) bpp color := by
    unfold SET_PIXEL
    rw [if_pos rfl]
  constructor
  · unfold GET_PIXEL
    rw [hset]
    exact hcore.1
  · intro j u hcond
    by_cases hj : j = index / (8 / bpp)
    · subst hj
      rw [hset]
      rcases hcond with hjk | hu | hu
      · exact absurd rfl hjk
      · exact hcore.2 u (Or.inl hu)
      · exact hcore.2 u (Or.inr hu)
    · unfold SET_PIXEL
      rw [if_neg hj]

/-- Claim C5 (confirmed).  For every bits-per-pixel in 1, 2, 4, 8, every
pixel position, every color value below `2 ^ bitsPerPixel` and every byte
buffer, `GET_PIXEL` after `SET_PIXEL` at the same position returns the
written value, and `SET_PIXEL` at a position changes no bit of the buffer
outside that position's bit field (other bytes are untouched, and within the
target byte every bit below the field's shift or at or above shift +
bitsPerPixel keeps its value). -/
theorem palette_set_get_roundtrip (array : Nat → Nat) (index bitsPerPixel color : Nat)
    (hbpp : bitsPerPixel = 1 ∨ bitsPerPixel = 2 ∨ bitsPerPixel = 4 ∨ bitsPerPixel = 8)
    (hc : color < 2 ^ bitsPerPixel) (hbytes : ∀ j, array j < 256) :
    GET_PIXEL (SET_PIXEL array index bitsPerPixel color) index bitsPerPixel = color ∧
    ∀ j u, (j ≠ index / (8 / bitsPerPixel) ∨ u < (index * bitsPerPixel) % 8 ∨
        (index * bitsPerPixel) % 8 + bitsPerPixel ≤ u) →
      (SET_PIXEL array index bitsPerPixel color j).testBit u = (array j).testBit u := by
  rcases hbpp with h | h | h | h <;> subst h
  · exact set_get_general 1 (by decide) (by decide) array index color hc hbytes
  · exact set_get_general 2 (by decide) (by decide) array index color hc hbytes
  · exact set_get_general 4 (by decide) (by decide) array index color hc hbytes
  · exact set_get_general 8 (by decide) (by decide) array index color hc hbytes

/-- Claim C5 witness: the theorem applied at bits-per-pixel 2, position 3,
color 2, on the all-zero buffer; the round-trip reads back 2. -/
theorem palette_set_get_roundtrip_witness :
    GET_PIXEL (SET_PIXEL (fun _ => 0) 3 2 2) 3 2 = 2 :=
  (palette_set_get_roundtrip (fun _ => 0) 3 2 2 (Or.inr (Or.inl rfl)) (by decide)
    (fun _ => show (0 : Nat) < 256 by decide)).1

/-- Helper: data-line indices distribute over `flatMap`. -/
theorem dataIndices_flatMap (l : List Nat) (g : Nat → List TxEvent) :
    dataIndices (l.flatMap g) = l.flatMap (fun x => dataIndices (g x)) := by
  unfold dataIndices
  rw [List.filterMap_flatMap]

/-- Helper: clock-line indices distribute over `flatMap`. -/
theorem clockIndices_flatMap (l : List Nat) (g : Nat → List TxEvent) :
    clockIndices (l.flatMap g) = l.flatMap (fun x => clockIndices (g x)) := by
  unfold clockIndices
  rw [List.filterMap_flatMap]

/-- Helper: a `flatMap` of singletons is a `map`. -/
theorem flatMap_singleton_map (l : List Nat) (g : Nat → Nat) :
    (l.flatMap fun k => [g k]) = l.map g := by
  induction l with
  | nil => rfl
  | cons a l ih => simp [List.flatMap_cons, ih]

/-- Helper: the values visited by `for (pix = 0; pix < inc * m; pix += inc)`
are the `m` multiples of `inc`. -/
theorem filter_mod_range (inc : Nat) (hinc : 0 < inc) (m : Nat) :
    (List.range (inc * m)).filter (fun p => p % inc == 0) = (List.range m).map (· * inc) := by
  induction m with
  | zero => simp
  | succ n ih =>
    have h1 : inc * (n + 1) = inc * n + inc := by ring
    rw [h1, List.range_add, List.filter_append, ih, List.range_succ, List.map_append]
    congr 1
    rw [List.filter_map]
    have h3 : ∀ j ∈ List.range inc,
        ((fun p => p % inc == 0) ∘ (inc * n + ·)) j = (j == 0) := by
      intro j hj
      rw [List.mem_range] at hj
      show ((inc * n + j) % inc == 0) = (j == 0)
      rw [Nat.mul_add_mod, Nat.mod_eq_of_lt hj]
    rw [List.filter_congr h3]
    obtain ⟨k, rfl⟩ : ∃ k, inc = k + 1 := ⟨inc - 1, by omega⟩
    rw [List.range_succ_eq_map]
    simp [List.filter_cons, List.filter_map, Nat.mul_comm]

/-- Helper: consecutive blocks of `B` indices tile an initial range. -/
theorem range_flatMap_block (B m : Nat) :
    (List.range m).flatMap (fun t => (List.range B).map (fun k => t * B + k)) =
      List.range (m * B) := by
  induction m with
  | zero => simp
  | succ n ih =>
    rw [List.range_succ, List.flatMap_append, ih]
    have h1 : (n + 1) * B = n * B + B := by ring
    rw [h1, List.range_add]
    simp [List.flatMap_cons]

/-- Helper: consecutive blocks of `B` indices shifted by `c`. -/
theorem range_flatMap_block_off (B m c : Nat) :
    (List.range m).flatMap (fun t => (List.range B).map (fun k => t * B + k + c)) =
      (List.range (m * B)).map (· + c) := by
  rw [← range_flatMap_block B m, List.map_flatMap]
  simp only [List.map_map]
  rfl

/-- Helper: among the first `2 * B` byte indices, those of the even pixel
are exactly the first `B`. -/
theorem range_two_filter_even (B : Nat) (hB : 0 < B) :
    (List.range (2 * B)).filter (fun j => (j / B) % 2 == 0) = List.range B := by
  have h2 : 2 * B = B + B := by ring
  rw [h2, List.range_add, List.filter_append]
  have hfirst : (List.range B).filter (fun j => (j / B) % 2 == 0) = List.range B := by
    rw [List.filter_eq_self]
    intro j hj
    rw [List.mem_range] at hj
    simp [Nat.div_eq_of_lt hj]
  have hsecond : ((List.range B).map (B + ·)).filter (fun j => (j / B) % 2 == 0) = [] := by
    rw [List.filter_eq_nil_iff]
    intro a ha
    rw [List.mem_map] at ha
    obtain ⟨k, hk, rfl⟩ := ha
    rw [List.mem_range] at hk
    have hq : (B + k) / B = 1 := by
      rw [show B + k = B * 1 + k by ring, Nat.mul_add_div hB, Nat.div_eq_of_lt hk]
    simp [hq]
  rw [hfirst, hsecond, List.append_nil]

/-- Helper: among the first `2 * B` byte indices, those of the odd pixel are
exactly the last `B`. -/
theorem range_two_filter_odd (B : Nat) (hB : 0 < B) :
    (List.range (2 * B)).filter (fun j => (j / B) % 2 == 1) =
      (List.range B).map (B + ·) := by
  have h2 : 2 * B = B + B := by ring
  rw [h2, List.range_add, List.filter_append]
  have hfirst : (List.range B).filter (fun j => (j / B) % 2 == 1) = [] := by
    rw [List.filter_eq_nil_iff]
    intro j hj
    rw [List.mem_range] at hj
    simp [Nat.div_eq_of_lt hj]
  have hsecond : ((List.range B).map (B + ·)).filter (fun j => (j / B) % 2 == 1) =
      (List.range B).map (B + ·) := by
    rw [List.filter_eq_self]
    intro a ha
    rw [List.mem_map] at ha
    obtain ⟨k, hk, rfl⟩ := ha
    rw [List.mem_range] at hk
    have hq : (B + k) / B = 1 := by
      rw [show B + k = B * 1 + k by ring, Nat.mul_add_div hB, Nat.div_eq_of_lt hk]
    simp [hq]
  rw [hfirst, hsecond, List.nil_append]

/-- Helper: the interleaved stride-2 blocks cover exactly the even-pixel
byte indices. -/
theorem intlv_even_block (B : Nat) (hB : 0 < B) (m : Nat) :
    (List.range m).flatMap (fun t => (List.range B).map (fun k => t * (2 * B) + k)) =
      (List.range (2 * B * m)).filter (fun i => (i / B) % 2 == 0) := by
  induction m with
  | zero => simp
  | succ n ih =>
    rw [List.range_succ, List.flatMap_append, ih]
    have h1 : 2 * B * (n + 1) = 2 * B * n + 2 * B := by ring
    rw [h1, List.range_add, List.filter_append]
    rw [List.filter_map]
    have h3 : ∀ j ∈ List.range (2 * B),
        ((fun i => (i / B) % 2 == 0) ∘ (2 * B * n + ·)) j = ((j / B) % 2 == 0) := by
      intro j hj
      show ((2 * B * n + j) / B % 2 == 0) = ((j / B) % 2 == 0)
      have hd : (2 * B * n + j) / B = 2 * n + j / B := by
        rw [show 2 * B * n = B * (2 * n) by ring, Nat.mul_add_div hB]
      rw [hd, Nat.mul_add_mod]
    rw [List.filter_congr h3, range_two_filter_even B hB, List.flatMap_singleton]
    congr 1
    exact List.map_congr_left (fun k hk => by ring)

/-- Helper: the interleaved stride-2 blocks shifted by one pixel cover
exactly the odd-pixel byte indices. -/
theorem intlv_odd_block (B : Nat) (hB : 0 < B) (m : Nat) :
    (List.range m).flatMap (fun t => (List.range B).map (fun k => t * (2 * B) + k + B)) =
      (List.range (2 * B * m)).filter (fun i => (i / B) % 2 == 1) := by
  induction m with
  | zero => simp
  | succ n ih =>
    rw [List.range_succ, List.flatMap_append, ih]
    have h1 : 2 * B * (n + 1) = 2 * B * n + 2 * B := by ring
    rw [h1, List.range_add, List.filter_append]
    rw [List.filter_map]
    have h3 : ∀ j ∈ List.range (2 * B),
        ((fun i => (i / B) % 2 == 1) ∘ (2 * B * n + ·)) j = ((j / B) % 2 == 1) := by
      intro j hj
      show ((2 * B * n + j) / B % 2 == 1) = ((j / B) % 2 == 1)
      have hd : (2 * B * n + j) / B = 2 * n + j / B := by
        rw [show 2 * B * n = B * (2 * n) by ring, Nat.mul_add_div hB]
      rw [hd, Nat.mul_add_mod]
    rw [List.filter_congr h3, range_two_filter_odd B hB, List.flatMap_singleton, List.map_map]
    congr 1
    exact List.map_congr_left (fun k hk => by
      show n * (2 * B) + k + B = 2 * B * n + (B + k)
      ring)

/-- Helper: per-byte data/clock index pair of the inner bit loop. -/
theorem dataIndices_pair (i j vi vj : Nat) :
    dataIndices [TxEvent.tx .dataP i vi, TxEvent.tx .clockP j vj] = [i] := rfl

/-- Helper: per-byte data/clock index pair of the inner bit loop. -/
theorem clockIndices_pair (i j vi vj : Nat) :
    clockIndices [TxEvent.tx .dataP i vi, TxEvent.tx .clockP j vj] = [j] := rfl

/-- Helper: `twoPortSoftwareSendBytes` unfolded at the split protocol. -/
theorem twoPortSplit_eq (B count : Nat) (array : Nat → Nat) :
    twoPortSoftwareSendBytes .twoPortSplitBitbang B count array =
      ((List.range (count / 2)).filter (fun pix => pix % (1 * B) == 0)).flatMap (fun pix =>
        (List.range B).flatMap (fun k =>
          [TxEvent.tx .dataP (pix + k) (array (pix + k)),
           TxEvent.tx .clockP (pix + k + count / 2) (array (pix + k + count / 2))])) := rfl

/-- Helper: `twoPortSoftwareSendBytes` unfolded at the interleaved
protocol. -/
theorem twoPortIntlv_eq (B count : Nat) (array : Nat → Nat) :
    twoPortSoftwareSendBytes .twoPortIntlvBitbang B count array =
      ((List.range count).filter (fun pix => pix % (2 * B) == 0)).flatMap (fun pix =>
        (List.range B).flatMap (fun k =>
          [TxEvent.tx .dataP (pix + k) (array (pix + k)),
           TxEvent.tx .clockP (pix + k + B) (array (pix + k + B))])) := rfl

/-- Helper: split-mode data indices are the first half of the array. -/
theorem split_data (B m : Nat) (hB : 0 < B) (array : Nat → Nat) :
    dataIndices (twoPortSoftwareSendBytes .twoPortSplitBitbang B (2 * B * m) array) =
      List.range (B * m) := by
  have hbs : 2 * B * m / 2 = B * m := by
    rw [show 2 * B * m = 2 * (B * m) by ring]
    exact Nat.mul_div_cancel_left _ (by decide)
  rw [twoPortSplit_eq, hbs]
  simp only [dataIndices_flatMap, dataIndices_pair, flatMap_singleton_map, Nat.one_mul]
  rw [filter_mod_range B hB m, List.flatMap_map, show B * m = m * B from Nat.mul_comm B m]
  exact range_flatMap_block B m

/-- Helper: split-mode clock indices are the second half of the array. -/
theorem split_clock (B m : Nat) (hB : 0 < B) (array : Nat → Nat) :
    clockIndices (twoPortSoftwareSendBytes .twoPortSplitBitbang B (2 * B * m) array) =
      (List.range (B * m)).map (· + B * m) := by
  have hbs : 2 * B * m / 2 = B * m := by
    rw [show 2 * B * m = 2 * (B * m) by ring]
    exact Nat.mul_div_cancel_left _ (by decide)
  rw [twoPortSplit_eq, hbs]
  simp only [clockIndices_flatMap, clockIndices_pair, flatMap_singleton_map, Nat.one_mul]
  rw [filter_mod_range B hB m, List.flatMap_map, range_flatMap_block_off B m (B * m),
    Nat.mul_comm m B]

/-- Helper: interleaved-mode data indices are the even-pixel bytes. -/
theorem intlv_data (B m : Nat) (hB : 0 < B) (array : Nat → Nat) :
    dataIndices (twoPortSoftwareSendBytes .twoPortIntlvBitbang B (2 * B * m) array) =
      (List.range (2 * B * m)).filter (fun i => (i / B) % 2 == 0) := by
  rw [twoPortIntlv_eq]
  simp only [dataIndices_flatMap, dataIndices_pair, flatMap_singleton_map]
  rw [filter_mod_range (2 * B) (by omega) m, List.flatMap_map]
  exact intlv_even_block B hB m

/-- Helper: interleaved-mode clock indices are the odd-pixel bytes. -/
theorem intlv_clock (B m : Nat) (hB : 0 < B) (array : Nat → Nat) :
    clockIndices (twoPortSoftwareSendBytes .twoPortIntlvBitbang B (2 * B * m) array) =
      (List.range (2 * B * m)).filter (fun i => (i / B) % 2 == 1) := by
  rw [twoPortIntlv_eq]
  simp only [clockIndices_flatMap, clockIndices_pair, flatMap_singleton_map]
  rw [filter_mod_range (2 * B) (by omega) m, List.flatMap_map]
  exact intlv_odd_block B hB m

/-- Claim C7 (confirmed).  For a byte count that is a whole number of pixel
pairs (`count = 2 * stripBPP * m`, hence even and a multiple of twice the
bytes-per-pixel), the two-port routine transmits every one of the `count`
source byte indices exactly once across the two ports and touches no index
outside the array (the concatenation of the per-port index lists is a
permutation of `range count`): under the split protocol the data port sends
exactly bytes `0 .. count/2 - 1` in order and the clock port bytes
`count/2 .. count - 1`, and under the interleaved protocol the data port
sends exactly the even-indexed pixels' bytes and the clock port the
odd-indexed pixels' bytes. -/
theorem two_port_each_byte_once (stripBPP m count : Nat) (array : Nat → Nat)
    (hB : 0 < stripBPP) (hcount : count = 2 * stripBPP * m) :
    dataIndices (twoPortSoftwareSendBytes .twoPortSplitBitbang stripBPP count array) =
      List.range (count / 2) ∧
    clockIndices (twoPortSoftwareSendBytes .twoPortSplitBitbang stripBPP count array) =
      (List.range (count / 2)).map (· + count / 2) ∧
    (dataIndices (twoPortSoftwareSendBytes .twoPortSplitBitbang stripBPP count array) ++
      clockIndices (twoPortSoftwareSendBytes .twoPortSplitBitbang stripBPP count array)).Perm
      (List.range count) ∧
    dataIndices (twoPortSoftwareSendBytes .twoPortIntlvBitbang stripBPP count array) =
      (List.range count).filter (fun i => (i / stripBPP) % 2 == 0) ∧
    clockIndices (twoPortSoftwareSendBytes .twoPortIntlvBitbang stripBPP count array) =
      (List.range count).filter (fun i => (i / stripBPP) % 2 == 1) ∧
    (dataIndices (twoPortSoftwareSendBytes .twoPortIntlvBitbang stripBPP count array) ++
      clockIndices (twoPortSoftwareSendBytes .twoPortIntlvBitbang stripBPP count array)).Perm
      (List.range count) := by
  subst hcount
  have hbs : 2 * stripBPP * m / 2 = stripBPP * m := by
    rw [show 2 * stripBPP * m = 2 * (stripBPP * m) by ring]
    exact Nat.mul_div_cancel_left _ (by decide)
  refine ⟨?_, ?_, ?_, intlv_data stripBPP m hB array, intlv_clock stripBPP m hB array, ?_⟩
  · rw [hbs]
    exact split_data stripBPP m hB array
  · rw [hbs]
    exact split_clock stripBPP m hB array
  · rw [split_data stripBPP m hB array, split_clock stripBPP m hB array,
      show 2 * stripBPP * m = stripBPP * m + stripBPP * m by ring, List.range_add]
    have h1 : (List.range (stripBPP * m)).map (· + stripBPP * m) =
        (List.range (stripBPP * m)).map (stripBPP * m + ·) :=
      List.map_congr_left (fun a _ => Nat.add_comm a (stripBPP * m))
    rw [h1]
  · rw [intlv_data stripBPP m hB array, intlv_clock stripBPP m hB array]
    have hneg : (List.range (2 * stripBPP * m)).filter (fun i => (i / stripBPP) % 2 == 1) =
        (List.range (2 * stripBPP * m)).filter (fun i => !((i / stripBPP) % 2 == 0)) :=
      List.filter_congr (fun i _ => by
        rcases Nat.mod_two_eq_zero_or_one (i / stripBPP) with h | h <;> simp [h])
    rw [hneg]
    exact List.filter_append_perm _ _

/-- Claim C7 witness: the theorem applied at 3 bytes per pixel and 2 pixel
pairs (`count = 12`); the split data port carries bytes 0-5. -/
theorem two_port_each_byte_once_witness :
    dataIndices (twoPortSoftwareSendBytes .twoPortSplitBitbang 3 12 (fun i => i)) =
      List.range (12 / 2) :=
  (two_port_each_byte_once 3 2 12 (fun i => i) (by decide) (by decide)).1

end FABLED
